import Mathlib

/-!
Verification development for the remote terminal session bridge of the
Kodiack-Studio MCP server (`src/index.js`, and the unnamed second revision of
the same file). JS strings are modelled as `List Char`; each definition below
is a direct transcription of the corresponding place in the source, cited by
line in its doc comment.

A JS `String.prototype.replace` with a `/g` regex and an empty replacement
scans left to right, removes each leftmost match and resumes right after it; on
failure it advances one character.  Each of the four regexes of the ANSI strip
chain is deterministic in the sense that backtracking into its greedy star can
never produce a match that the maximal run misses (a shorter run would put a
star-class character where the required terminator must be), so "the match at a
position" is well defined and is computed by the `...Tail` head-matcher
functions below; the `strip...` functions perform the scan.
-/

/-- The ESC character `\x1b`. -/
def escChar : Char := '\x1b'

/-- The BEL character `\x07`, the OSC terminator. -/
def belChar : Char := '\x07'

/-- The regex character class `[0-9;]` (CSI parameter bytes). -/
def isParamChar (c : Char) : Bool := ('0' ≤ c && c ≤ '9') || c == ';'

/-- The regex character classes `[A-Za-z]` / `[a-zA-Z]` (CSI final byte). -/
def isFinalByte (c : Char) : Bool := ('A' ≤ c && c ≤ 'Z') || ('a' ≤ c && c ≤ 'z')

/-- `(List.dropWhile p l).length ≤ l.length`, used for termination of the
scan functions below. -/
theorem length_dropWhile_le (p : Char → Bool) (l : List Char) :
    (l.dropWhile p).length ≤ l.length :=
  (List.dropWhile_sublist (p := p) (l := l)).length_le

/-- The match of `/\x1b\[[0-9;]*[A-Za-z]/` (index.js:411) at the head of the
string: ESC, `[`, the maximal run of parameter bytes, then an alphabetic final
byte.  Returns the suffix after the match, or `none` when the pattern does not
match at the head. -/
def csiTail : List Char → Option (List Char)
  | '\x1b' :: '[' :: cs2 =>
    match cs2.dropWhile isParamChar with
    | d :: rest => if isFinalByte d then some rest else none
    | [] => none
  | _ => none

/-- A CSI match consumes at least the leading `ESC [`. -/
theorem csiTail_length_lt :
    ∀ {s r : List Char}, csiTail s = some r → r.length < s.length := by
  intro s r h
  unfold csiTail at h
  split at h
  · rename_i cs2
    split at h
    · rename_i d rest heq
      split at h
      · obtain rfl : rest = r := Option.some.inj h
        have h1 : (cs2.dropWhile isParamChar).length ≤ cs2.length :=
          length_dropWhile_le isParamChar cs2
        rw [heq] at h1
        simp at h1 ⊢
        omega
      · exact absurd h (by simp)
    · exact absurd h (by simp)
  · exact absurd h (by simp)

/-- No CSI match can start at a non-ESC character. -/
theorem csiTail_of_head_ne {c : Char} {cs : List Char} (hc : ¬c = escChar) :
    csiTail (c :: cs) = none := by
  unfold csiTail
  split
  · rename_i heq
    injection heq with h1 h2
    exact absurd h1 hc
  · rfl

/-- Embedding of `.replace(/\x1b\[[0-9;]*[A-Za-z]/g, '')` (index.js:411): the
left-to-right scan removing every CSI match. -/
def stripCsi : List Char → List Char
  | [] => []
  | c :: cs =>
    match h : csiTail (c :: cs) with
    | some rest => stripCsi rest
    | none => c :: stripCsi cs
termination_by s => s.length
decreasing_by
  · exact csiTail_length_lt h
  · simp_arith

/-- Unfolding of `stripCsi` when a CSI match starts at the head. -/
theorem stripCsi_cons_some {c : Char} {cs rest : List Char}
    (h : csiTail (c :: cs) = some rest) : stripCsi (c :: cs) = stripCsi rest := by
  rw [stripCsi.eq_def]
  split
  · rename_i heq
    exact absurd heq (by simp)
  · rename_i x c2 cs2 heq
    injection heq with e1 e2
    subst e1
    subst e2
    split
    · rename_i r heq2
      rw [h] at heq2
      rw [Option.some.inj heq2]
    · rename_i heq2
      rw [h] at heq2
      cases heq2

/-- Unfolding of `stripCsi` when no CSI match starts at the head. -/
theorem stripCsi_cons_none {c : Char} {cs : List Char}
    (h : csiTail (c :: cs) = none) : stripCsi (c :: cs) = c :: stripCsi cs := by
  rw [stripCsi.eq_def]
  split
  · rename_i heq
    exact absurd heq (by simp)
  · rename_i x c2 cs2 heq
    injection heq with e1 e2
    subst e1
    subst e2
    split
    · rename_i r heq2
      rw [h] at heq2
      cases heq2
    · rfl

/-- The match of `/\x1b\[\?[0-9;]*[a-zA-Z]/` (index.js:412) at the head of the
string: private-mode CSI, `ESC [ ?`, parameter bytes, alphabetic final byte. -/
def privateCsiTail : List Char → Option (List Char)
  | '\x1b' :: '[' :: '?' :: cs2 =>
    match cs2.dropWhile isParamChar with
    | d :: rest => if isFinalByte d then some rest else none
    | [] => none
  | _ => none

/-- A private-mode CSI match consumes at least the leading `ESC [ ?`. -/
theorem privateCsiTail_length_lt :
    ∀ {s r : List Char}, privateCsiTail s = some r → r.length < s.length := by
  intro s r h
  unfold privateCsiTail at h
  split at h
  · rename_i cs2
    split at h
    · rename_i d rest heq
      split at h
      · obtain rfl : rest = r := Option.some.inj h
        have h1 : (cs2.dropWhile isParamChar).length ≤ cs2.length :=
          length_dropWhile_le isParamChar cs2
        rw [heq] at h1
        simp at h1 ⊢
        omega
      · exact absurd h (by simp)
    · exact absurd h (by simp)
  · exact absurd h (by simp)

/-- No private-mode CSI match can start at a non-ESC character. -/
theorem privateCsiTail_of_head_ne {c : Char} {cs : List Char} (hc : ¬c = escChar) :
    privateCsiTail (c :: cs) = none := by
  unfold privateCsiTail
  split
  · rename_i heq
    injection heq with h1 h2
    exact absurd h1 hc
  · rfl

/-- Embedding of `.replace(/\x1b\[\?[0-9;]*[a-zA-Z]/g, '')` (index.js:412). -/
def stripPrivateCsi : List Char → List Char
  | [] => []
  | c :: cs =>
    match h : privateCsiTail (c :: cs) with
    | some rest => stripPrivateCsi rest
    | none => c :: stripPrivateCsi cs
termination_by s => s.length
decreasing_by
  · exact privateCsiTail_length_lt h
  · simp_arith

/-- Unfolding of `stripPrivateCsi` when a match starts at the head. -/
theorem stripPrivateCsi_cons_some {c : Char} {cs rest : List Char}
    (h : privateCsiTail (c :: cs) = some rest) :
    stripPrivateCsi (c :: cs) = stripPrivateCsi rest := by
  rw [stripPrivateCsi.eq_def]
  split
  · rename_i heq
    exact absurd heq (by simp)
  · rename_i x c2 cs2 heq
    injection heq with e1 e2
    subst e1
    subst e2
    split
    · rename_i r heq2
      rw [h] at heq2
      rw [Option.some.inj heq2]
    · rename_i heq2
      rw [h] at heq2
      cases heq2

/-- Unfolding of `stripPrivateCsi` when no match starts at the head. -/
theorem stripPrivateCsi_cons_none {c : Char} {cs : List Char}
    (h : privateCsiTail (c :: cs) = none) :
    stripPrivateCsi (c :: cs) = c :: stripPrivateCsi cs := by
  rw [stripPrivateCsi.eq_def]
  split
  · rename_i heq
    exact absurd heq (by simp)
  · rename_i x c2 cs2 heq
    injection heq with e1 e2
    subst e1
    subst e2
    split
    · rename_i r heq2
      rw [h] at heq2
      cases heq2
    · rfl

/-- The match of `/\x1b\][^\x07]*\x07/` (index.js:413) at the head of the
string: OSC, `ESC ]` through the first subsequent BEL (no match when no BEL
follows). -/
def oscTail : List Char → Option (List Char)
  | '\x1b' :: ']' :: cs2 =>
    match cs2.dropWhile (fun x => x != belChar) with
    | d :: rest => if d = belChar then some rest else none
    | [] => none
  | _ => none

/-- An OSC match consumes at least the leading `ESC ]`. -/
theorem oscTail_length_lt :
    ∀ {s r : List Char}, oscTail s = some r → r.length < s.length := by
  intro s r h
  unfold oscTail at h
  split at h
  · rename_i cs2
    split at h
    · rename_i d rest heq
      split at h
      · obtain rfl : rest = r := Option.some.inj h
        have h1 : (cs2.dropWhile (fun x => x != belChar)).length ≤ cs2.length :=
          length_dropWhile_le _ cs2
        rw [heq] at h1
        simp at h1 ⊢
        omega
      · exact absurd h (by simp)
    · exact absurd h (by simp)
  · exact absurd h (by simp)

/-- No OSC match can start at a non-ESC character. -/
theorem oscTail_of_head_ne {c : Char} {cs : List Char} (hc : ¬c = escChar) :
    oscTail (c :: cs) = none := by
  unfold oscTail
  split
  · rename_i heq
    injection heq with h1 h2
    exact absurd h1 hc
  · rfl

/-- Embedding of `.replace(/\x1b\][^\x07]*\x07/g, '')` (index.js:413). -/
def stripOsc : List Char → List Char
  | [] => []
  | c :: cs =>
    match h : oscTail (c :: cs) with
    | some rest => stripOsc rest
    | none => c :: stripOsc cs
termination_by s => s.length
decreasing_by
  · exact oscTail_length_lt h
  · simp_arith

/-- Unfolding of `stripOsc` when a match starts at the head. -/
theorem stripOsc_cons_some {c : Char} {cs rest : List Char}
    (h : oscTail (c :: cs) = some rest) : stripOsc (c :: cs) = stripOsc rest := by
  rw [stripOsc.eq_def]
  split
  · rename_i heq
    exact absurd heq (by simp)
  · rename_i x c2 cs2 heq
    injection heq with e1 e2
    subst e1
    subst e2
    split
    · rename_i r heq2
      rw [h] at heq2
      rw [Option.some.inj heq2]
    · rename_i heq2
      rw [h] at heq2
      cases heq2

/-- Unfolding of `stripOsc` when no match starts at the head. -/
theorem stripOsc_cons_none {c : Char} {cs : List Char}
    (h : oscTail (c :: cs) = none) : stripOsc (c :: cs) = c :: stripOsc cs := by
  rw [stripOsc.eq_def]
  split
  · rename_i heq
    exact absurd heq (by simp)
  · rename_i x c2 cs2 heq
    injection heq with e1 e2
    subst e1
    subst e2
    split
    · rename_i r heq2
      rw [h] at heq2
      cases heq2
    · rfl

/-- Embedding of `.replace(/\x1b/g, '')` (index.js:414): every remaining bare
ESC byte is removed, i.e. the string is filtered. -/
def stripEsc (s : List Char) : List Char := s.filter (fun c => c != escChar)

/-- The four chained replacements applied to an `output` payload
(index.js:410-414): standard CSI, private-mode CSI, OSC, then bare ESC. -/
def scrub (s : List Char) : List Char :=
  stripEsc (stripOsc (stripPrivateCsi (stripCsi s)))

/-- On ESC-free input the CSI replacement finds no match (every pattern of the
chain begins with ESC). -/
theorem stripCsi_of_no_esc (s : List Char) (hs : escChar ∉ s) : stripCsi s = s := by
  induction s with
  | nil => rw [stripCsi]
  | cons c cs ih =>
    have hc : ¬c = escChar := fun h => hs (h ▸ List.mem_cons_self c cs)
    have hcs : escChar ∉ cs := fun h => hs (List.mem_cons_of_mem c h)
    rw [stripCsi_cons_none (csiTail_of_head_ne hc), ih hcs]

/-- On ESC-free input the private-mode CSI replacement finds no match. -/
theorem stripPrivateCsi_of_no_esc (s : List Char) (hs : escChar ∉ s) :
    stripPrivateCsi s = s := by
  induction s with
  | nil => rw [stripPrivateCsi]
  | cons c cs ih =>
    have hc : ¬c = escChar := fun h => hs (h ▸ List.mem_cons_self c cs)
    have hcs : escChar ∉ cs := fun h => hs (List.mem_cons_of_mem c h)
    rw [stripPrivateCsi_cons_none (privateCsiTail_of_head_ne hc), ih hcs]

/-- On ESC-free input the OSC replacement finds no match. -/
theorem stripOsc_of_no_esc (s : List Char) (hs : escChar ∉ s) : stripOsc s = s := by
  induction s with
  | nil => rw [stripOsc]
  | cons c cs ih =>
    have hc : ¬c = escChar := fun h => hs (h ▸ List.mem_cons_self c cs)
    have hcs : escChar ∉ cs := fun h => hs (List.mem_cons_of_mem c h)
    rw [stripOsc_cons_none (oscTail_of_head_ne hc), ih hcs]

/-- On ESC-free input, removing bare ESC bytes is a no-op. -/
theorem stripEsc_of_no_esc (s : List Char) (hs : escChar ∉ s) : stripEsc s = s := by
  rw [stripEsc, List.filter_eq_self]
  intro a ha
  simp only [bne_iff_ne, ne_eq]
  exact fun h => hs (h ▸ ha)

/-- The final replacement of the chain removes every ESC byte, so no ESC
survives a scrub pass. -/
theorem scrub_no_esc (s : List Char) : escChar ∉ scrub s := by
  intro h
  rcases List.mem_filter.mp h with ⟨-, hkeep⟩
  simp at hkeep

/-- A scrub pass is the identity on ESC-free text. -/
theorem scrub_of_no_esc (s : List Char) (hs : escChar ∉ s) : scrub s = s := by
  rw [scrub, stripCsi_of_no_esc s hs, stripPrivateCsi_of_no_esc s hs,
    stripOsc_of_no_esc s hs, stripEsc_of_no_esc s hs]

/-- `s.slice(-n)` for a JS string: the trailing `n` characters (a negative
start index counts from the end and clamps at the string start, so a string
shorter than `n` is returned whole). -/
def sliceLast (n : Nat) (l : List Char) : List Char := l.drop (l.length - n)

/-- The buffer append performed by the `output` branch of the message handler
(index.js:415-419): concatenate the scrubbed chunk, then, when the resulting
length exceeds 50,000, collapse to the trailing 30,000 characters. -/
def appendChunk (buf chunk : List Char) : List Char :=
  if 50000 < (buf ++ chunk).length then sliceLast 30000 (buf ++ chunk)
  else buf ++ chunk

/-- JSON values as produced by a successful `JSON.parse`.  Numbers are
modelled as integers (no claim below depends on fractional values) and
duplicate object keys are not modelled (`JSON.parse` keeps the last one; the
lookup below takes the first, so concrete objects used in theorems have
distinct keys). -/
inductive Json where
  | null
  | bool (b : Bool)
  | num (n : Int)
  | str (s : List Char)
  | arr (elems : List Json)
  | obj (fields : List (List Char × Json))

/-- A JS property access `v.name`: accessing a property of `null` throws a
TypeError (`Except.error`); an object yields the property's value or
`undefined` (`none`); any other value (number, string, boolean, array) yields
a value irrelevant to the handler, modelled as `undefined`. -/
def jsMember : Json → List Char → Except Unit (Option Json)
  | .null, _ => .error ()
  | .obj fields, name => .ok ((fields.find? (fun f => f.1 == name)).map (fun f => f.2))
  | _, _ => .ok none

/-- The strict comparison `msg.type === 'output'` (index.js:408): true only
when the property value is the JS string `'output'`. -/
def isOutputType (v : Option Json) : Bool :=
  match v with
  | some (.str s) => s == "output".toList
  | _ => false

/-- Embedding of the socket `message` handler (index.js:405-425).  `raw` is
`data.toString()`; `parsed` is the result of `JSON.parse(raw)`, `none` when
parsing throws.  Every exception inside the `try` block lands in the `catch`,
which appends the raw text unscrubbed and untrimmed: `JSON.parse` throwing,
`msg.type` on a `null` value, and `msg.data.replace` when `msg.data` is not a
string.  A parsed message whose `type` is not `'output'` is skipped. -/
def onMessage (raw : List Char) (parsed : Option Json) (buf : List Char) : List Char :=
  match parsed with
  | none => buf ++ raw
  | some msg =>
    match jsMember msg ("type".toList) with
    | .error _ => buf ++ raw
    | .ok tv =>
      if isOutputType tv then
        match jsMember msg ("data".toList) with
        | .error _ => buf ++ raw
        | .ok (some (.str d)) => appendChunk buf (scrub d)
        | .ok _ => buf ++ raw
      else buf

/-- The three module-level variables of the bridge (index.js:354-356).  The
live socket handle is modelled by the URL it was dialed with (`none` after
`close` nulls it). -/
structure SessionState where
  serverClaudeWs : Option String
  serverClaudeConnected : Bool
  serverClaudeBuffer : List Char

/-- What the synchronous part of a `connectToServerClaude` call does: reuse
the live connection, or dial a new socket to `wsUrl`. -/
inductive ConnectAction where
  | reuse
  | dial (wsUrl : String)

/-- The connection URL (index.js:393):
`${CLAUDE_SERVER_WS}?path=${encodeURIComponent(projectPath)}&mode=claude`.
The percent-encoding of `encodeURIComponent` is not modelled (no claim
depends on it); `projectPath` stands for its own encoding. -/
def buildWsUrl (base projectPath : String) : String :=
  base ++ "?path=" ++ projectPath ++ "&mode=claude"

/-- The synchronous first phase of `connectToServerClaude(projectPath)`
(index.js:386-397): when a live handle exists and the connected flag is set,
resolve immediately and change nothing; otherwise store a new socket handle
dialed at the built URL and reset the output buffer to the empty string.  The
connected flag is not touched here (it is set by the later `open` event). -/
def connectToServerClaudeStep (base : String) (st : SessionState)
    (projectPath : String) : SessionState × ConnectAction :=
  if st.serverClaudeWs.isSome && st.serverClaudeConnected then
    (st, .reuse)
  else
    let wsUrl := buildWsUrl base projectPath
    ({ st with serverClaudeWs := some wsUrl, serverClaudeBuffer := [] }, .dial wsUrl)

/-- How the promise returned by `connectToServerClaude` settles. -/
inductive ConnectOutcome where
  | resolved (t : Nat)
  | rejectedError (t : Nat)
  | rejectedTimeout (t : Nat)
deriving DecidableEq

/-- Settle semantics of the connect promise (index.js:399-444).  `openAt` /
`errAt` give the instant (ms after dialing) at which the socket's `open` /
`error` event fires, `none` when it never fires; a promise settles once, with
the first of: `open` (resolve, index.js:399-403), `error` (reject,
index.js:427-431), and the 10,000 ms timer (index.js:440-444), whose callback
rejects only when the connected flag — set by `open` — is still false.  A tie
is resolved in favour of the socket event, which is already queued when the
timer fires. -/
def connectSettle : Option Nat → Option Nat → ConnectOutcome
  | some tO, some tE =>
    if tO ≤ tE then
      if tO ≤ 10000 then .resolved tO else .rejectedTimeout 10000
    else
      if tE ≤ 10000 then .rejectedError tE else .rejectedTimeout 10000
  | some tO, none => if tO ≤ 10000 then .resolved tO else .rejectedTimeout 10000
  | none, some tE => if tE ≤ 10000 then .rejectedError tE else .rejectedTimeout 10000
  | none, none => .rejectedTimeout 10000

/-- The `server_claude_send` result text (index.js:819):
`serverClaudeBuffer || '(no output yet - server Claude may still be processing)'`.
A JS `||` yields its right operand exactly when the left one is the (falsy)
empty string. -/
def serverClaudeSendText (buf : List Char) : List Char :=
  if buf = [] then
    "(no output yet - server Claude may still be processing)".toList
  else buf

/-- The same result text in the unnamed revision (part_000:498):
`serverClaudeBuffer || '(no output)'`. -/
def serverClaudeSendTextLegacy (buf : List Char) : List Char :=
  if buf = [] then "(no output)".toList else buf

/-- The JS values a caller can supply for the optional numeric `waitMs`
argument: absent (`undefined`), `null`, `NaN`, or a number (modelled as an
integer; fractional milliseconds do not affect falsiness). -/
inductive JsNumArg where
  | undefined
  | null
  | nan
  | num (n : Int)

/-- JS truthiness of such a value: `undefined`, `null`, `NaN` and `0` are
falsy; every other number is truthy. -/
def jsTruthy : JsNumArg → Bool
  | .num n => n != 0
  | _ => false

/-- The wait computation of `server_claude_send` (index.js:815):
`const wait = waitMs || 5000`. -/
def sendWait (waitMs : JsNumArg) : JsNumArg :=
  if jsTruthy waitMs then waitMs else .num 5000

/-- Whether a wait value is the number zero. -/
def isZeroWait : JsNumArg → Bool
  | .num 0 => true
  | _ => false

/-- A sequence of `output`-branch appends starting from the buffer that a
`send` just reset to empty (index.js:810): each arriving chunk goes through
`appendChunk`. -/
def runAppends (chunks : List (List Char)) : List Char :=
  chunks.foldl appendChunk []

/-- The trailing slice is a suffix of the original buffer. -/
theorem sliceLast_suffix (n : Nat) (l : List Char) : sliceLast n l <:+ l :=
  List.drop_suffix _ l

/-- Length of the trailing slice when the buffer is at least `n` long. -/
theorem sliceLast_length_of_le {n : Nat} {l : List Char} (h : n ≤ l.length) :
    (sliceLast n l).length = n := by
  rw [sliceLast, List.length_drop]
  omega

/-- One handler append never leaves the buffer longer than 50,000: either the
concatenation already fits, or it is collapsed to 30,000 characters. -/
theorem appendChunk_length_le (buf chunk : List Char) :
    (appendChunk buf chunk).length ≤ 50000 := by
  unfold appendChunk
  split
  · rename_i h
    rw [sliceLast_length_of_le (by omega)]
    omega
  · rename_i h
    omega

/-- One handler append preserves being a suffix of the unbounded
concatenation. -/
theorem append_suffix_append {buf concat : List Char} (chunk : List Char)
    (h : buf <:+ concat) : buf ++ chunk <:+ concat ++ chunk := by
  obtain ⟨t, ht⟩ := h
  exact ⟨t, by rw [← List.append_assoc, ht]⟩

/-- One handler append preserves being a suffix of the unbounded
concatenation. -/
theorem appendChunk_suffix {buf concat : List Char} (chunk : List Char)
    (h : buf <:+ concat) : appendChunk buf chunk <:+ concat ++ chunk := by
  unfold appendChunk
  split
  · exact (sliceLast_suffix _ _).trans (append_suffix_append chunk h)
  · exact append_suffix_append chunk h

/-- One handler append, from a buffer at least 30,000 long, leaves the buffer
at least 30,000 long. -/
theorem appendChunk_ge {buf : List Char} (chunk : List Char)
    (h : 30000 ≤ buf.length) : 30000 ≤ (appendChunk buf chunk).length := by
  unfold appendChunk
  split
  · rename_i hgt
    rw [sliceLast_length_of_le (by omega)]
  · rename_i hgt
    rw [List.length_append]
    omega

/-- One handler append keeps the loop invariant's lower bound: a buffer that
was collapsed at least once before (or still mirrors the whole concatenation)
stays at least 30,000 long once it lags behind the concatenation. -/
theorem appendChunk_min {buf concat : List Char} (c : List Char)
    (h3 : buf.length < concat.length → 30000 ≤ buf.length) :
    (appendChunk buf c).length < (concat ++ c).length →
      30000 ≤ (appendChunk buf c).length := by
  unfold appendChunk
  split
  · rename_i hgt
    intro _
    rw [sliceLast_length_of_le (by omega)]
  · rename_i hle
    intro hlt
    rw [List.length_append] at hlt ⊢
    rw [List.length_append] at hlt
    have := h3 (by omega)
    omega

/-- Loop invariant of the handler's append sequence: the buffer is a suffix of
the unbounded concatenation, never longer than 50,000, and at least 30,000
long as soon as it has dropped anything. -/
theorem runAppends_invariant (chunks : List (List Char)) :
    ∀ buf concat : List Char, buf <:+ concat → buf.length ≤ 50000 →
      (buf.length < concat.length → 30000 ≤ buf.length) →
      chunks.foldl appendChunk buf <:+ concat ++ chunks.flatten ∧
        (chunks.foldl appendChunk buf).length ≤ 50000 ∧
        ((chunks.foldl appendChunk buf).length < (concat ++ chunks.flatten).length →
          30000 ≤ (chunks.foldl appendChunk buf).length) := by
  induction chunks with
  | nil =>
    intro buf concat h1 h2 h3
    simpa using ⟨h1, h2, h3⟩
  | cons c cs ih =>
    intro buf concat h1 h2 h3
    have key := ih (appendChunk buf c) (concat ++ c) (appendChunk_suffix c h1)
      (appendChunk_length_le buf c) (appendChunk_min c h3)
    rw [List.foldl_cons, List.flatten_cons, ← List.append_assoc]
    exact key

/-- Helper computation: the first counterexample append collapses a 50,001
character chunk to its trailing 30,000 characters. -/
theorem appendChunk_nil_big :
    appendChunk [] (List.replicate 50001 'a') = List.replicate 30000 'a' := by
  unfold appendChunk
  rw [List.nil_append, if_pos]
  · rw [sliceLast, List.length_replicate, List.drop_replicate]
  · rw [List.length_replicate]
    norm_num

/-- Helper computation: the second counterexample append fits and is a plain
concatenation. -/
theorem appendChunk_small :
    appendChunk (List.replicate 30000 'a') ['b'] = List.replicate 30000 'a' ++ ['b'] := by
  unfold appendChunk
  rw [if_neg]
  rw [List.length_append, List.length_replicate]
  norm_num

/-- C2 (counterexample): appending a 50,001 character chunk and then `"b"`
gives a total of 50,002 characters, exceeding 50,000 — but the buffer ends as
the trailing 30,000 characters of the first chunk plus `"b"` (30,001
characters), not as the trailing 30,000 characters of the unbounded
concatenation: truncation is applied eagerly at each append, not once at the
end. -/
theorem runAppends_not_trailing_slice :
    50000 < ([List.replicate 50001 'a', ['b']] : List (List Char)).flatten.length ∧
      runAppends [List.replicate 50001 'a', ['b']] ≠
        sliceLast 30000 ([List.replicate 50001 'a', ['b']] : List (List Char)).flatten := by
  have hflat : ([List.replicate 50001 'a', ['b']] : List (List Char)).flatten
      = List.replicate 50001 'a' ++ ['b'] := by
    rw [List.flatten_cons, List.flatten_cons, List.flatten_nil, List.append_nil]
  have hflatlen : (([List.replicate 50001 'a', ['b']] : List (List Char)).flatten).length
      = 50002 := by
    rw [hflat, List.length_append, List.length_replicate]
    simp
  have hrun : runAppends [List.replicate 50001 'a', ['b']]
      = List.replicate 30000 'a' ++ ['b'] := by
    rw [runAppends, List.foldl_cons, List.foldl_cons, List.foldl_nil,
      appendChunk_nil_big, appendChunk_small]
  constructor
  · rw [hflatlen]
    norm_num
  · intro heq
    have hlen := congrArg List.length heq
    rw [hrun] at heq
    have h1 : (List.replicate 30000 'a' ++ ['b'] : List Char).length = 30001 := by
      rw [List.length_append, List.length_replicate]
      simp
    have h2 : (sliceLast 30000
        (([List.replicate 50001 'a', ['b']] : List (List Char)).flatten)).length = 30000 := by
      rw [sliceLast_length_of_le (by rw [hflatlen]; norm_num)]
    rw [hrun] at hlen
    rw [h1, h2] at hlen
    norm_num at hlen

/-- C2 (amended): after appending chunks whose total length exceeds
S_max = 50,000, the buffer holds between S_trunc = 30,000 and S_max
characters and its contents are a suffix of (i.e. the trailing
`buffer.length` characters of) the unbounded concatenation. -/
theorem runAppends_bounded_suffix (chunks : List (List Char))
    (h : 50000 < chunks.flatten.length) :
    (runAppends chunks).length ≤ 50000 ∧ 30000 ≤ (runAppends chunks).length ∧
      runAppends chunks <:+ chunks.flatten := by
  have key := runAppends_invariant chunks [] [] List.nil_suffix (by simp) (by simp)
  rw [List.nil_append] at key
  obtain ⟨hsuf, hle, hmin⟩ := key
  rw [runAppends]
  exact ⟨hle, hmin (by omega), hsuf⟩

/-- C2 witness: a single 50,001 character chunk exceeds the bound and the
conclusion holds of it. -/
theorem runAppends_bounded_suffix_witness :
    50000 < ([List.replicate 50001 'a'] : List (List Char)).flatten.length ∧
      ((runAppends [List.replicate 50001 'a']).length ≤ 50000 ∧
        30000 ≤ (runAppends [List.replicate 50001 'a']).length ∧
        runAppends [List.replicate 50001 'a'] <:+
          ([List.replicate 50001 'a'] : List (List Char)).flatten) := by
  have hlen : (([List.replicate 50001 'a'] : List (List Char)).flatten).length = 50001 := by
    rw [List.flatten_cons, List.flatten_nil, List.append_nil, List.length_replicate]
  refine ⟨by rw [hlen]; norm_num, ?_⟩
  exact runAppends_bounded_suffix [List.replicate 50001 'a'] (by rw [hlen]; norm_num)

/-- C3: the escape-sequence scrubber — the four chained regex replacements
applied to an `output` payload — is idempotent: every pattern of the chain
needs an ESC byte to match, and the final replacement removed them all, so a
second pass changes nothing. -/
theorem scrub_idempotent (s : List Char) : scrub (scrub s) = scrub s :=
  scrub_of_no_esc (scrub s) (scrub_no_esc s)

/-- C4: an inbound message that `JSON.parse` rejects is appended to the buffer
verbatim — unscrubbed and untrimmed — and the handler, a total function,
surfaces no error to the caller. -/
theorem onMessage_unparseable_appends_verbatim (raw buf : List Char) :
    onMessage raw none buf = buf ++ raw := rfl

/-- C1 (counterexample): a single unparseable 50,001 byte message, handled
from the initial empty buffer, leaves the buffer 50,001 characters long — the
raw fallback branch performs no S_max check, so the claimed invariant fails
on that branch. -/
theorem onMessage_raw_branch_unbounded :
    50000 < (onMessage (List.replicate 50001 'x') none []).length := by
  have h : onMessage (List.replicate 50001 'x') none [] = List.replicate 50001 'x' := by
    rw [onMessage_unparseable_appends_verbatim, List.nil_append]
  rw [h, List.length_replicate]
  norm_num

/-- C1 (amended): after a message handled by the structured `output` branch —
a parsed value whose `type` property is the string `'output'` and whose
`data` property is a string — the buffer never exceeds 50,000 characters, and
whenever the append would exceed 50,000 the buffer is collapsed to the
trailing 30,000 characters; the raw fallback branch enforces no bound (see
the counterexample). -/
theorem onMessage_output_branch_bounded (raw : List Char) (msg : Json)
    (tv : Option Json) (d buf : List Char)
    (htype : jsMember msg ("type".toList) = .ok tv)
    (hout : isOutputType tv = true)
    (hdata : jsMember msg ("data".toList) = .ok (some (.str d))) :
    (onMessage raw (some msg) buf).length ≤ 50000 ∧
      (50000 < (buf ++ scrub d).length →
        onMessage raw (some msg) buf = sliceLast 30000 (buf ++ scrub d)) := by
  have hred : onMessage raw (some msg) buf = appendChunk buf (scrub d) := by
    rw [onMessage, htype, hdata]
    simp [hout]
  refine ⟨hred ▸ appendChunk_length_le buf (scrub d), fun hov => ?_⟩
  rw [hred]
  unfold appendChunk
  rw [if_pos hov]

/-- A concrete structured `output` envelope, as parsed from
`{"type":"output","data":"hi"}`. -/
def outputMsgExample : Json :=
  Json.obj [("type".toList, Json.str ("output".toList)),
            ("data".toList, Json.str ("hi".toList))]

/-- C1 witness: the amended bound at the concrete envelope above. -/
theorem onMessage_output_branch_bounded_witness :
    jsMember outputMsgExample ("type".toList) = .ok (some (.str ("output".toList))) ∧
    isOutputType (some (.str ("output".toList))) = true ∧
    jsMember outputMsgExample ("data".toList) = .ok (some (.str ("hi".toList))) ∧
    ((onMessage ("x".toList) (some outputMsgExample) []).length ≤ 50000 ∧
      (50000 < (([] : List Char) ++ scrub ("hi".toList)).length →
        onMessage ("x".toList) (some outputMsgExample) [] =
          sliceLast 30000 (([] : List Char) ++ scrub ("hi".toList)))) :=
  ⟨rfl, rfl, rfl,
    onMessage_output_branch_bounded ("x".toList) outputMsgExample
      (some (.str ("output".toList))) ("hi".toList) [] rfl rfl rfl⟩

/-- C9 (counterexample): the inbound message `'null'` parses successfully as
JSON (to the value `null`) and certainly has no `type` equal to `'output'` —
yet the handler does not leave the buffer unchanged: `msg.type` on `null`
throws a TypeError, the `catch` appends the raw text, and the empty buffer
becomes `'null'`. -/
theorem onMessage_null_message_appends :
    onMessage ("null".toList) (some Json.null) [] = "null".toList ∧
      "null".toList ≠ ([] : List Char) := ⟨rfl, by decide⟩

/-- C9 (amended): for every inbound message that parses to a JSON value whose
`type` property access succeeds (any value but `null`) and is not the string
`'output'`, the handler leaves the buffer unchanged and raises no error; a
message parsing to `null` instead takes the catch path and appends its raw
text (see the counterexample). -/
theorem onMessage_skips_non_output (raw buf : List Char) (msg : Json)
    (tv : Option Json)
    (htype : jsMember msg ("type".toList) = .ok tv)
    (hout : isOutputType tv = false) :
    onMessage raw (some msg) buf = buf := by
  rw [onMessage, htype]
  simp [hout]

/-- A concrete non-`output` envelope, as parsed from `{"type":"status"}`. -/
def statusMsgExample : Json := Json.obj [("type".toList, Json.str ("status".toList))]

/-- C9 witness: the amended claim at the concrete envelope above. -/
theorem onMessage_skips_non_output_witness :
    jsMember statusMsgExample ("type".toList) = .ok (some (.str ("status".toList))) ∧
    isOutputType (some (.str ("status".toList))) = false ∧
    onMessage ("x".toList) (some statusMsgExample) ("b".toList) = "b".toList :=
  ⟨rfl, rfl,
    onMessage_skips_non_output ("x".toList) ("b".toList) statusMsgExample
      (some (.str ("status".toList))) rfl rfl⟩

/-- C5: while a live handle exists and the connected flag is set, a connect
call resolves immediately: it performs no dial and changes nothing, whatever
target path it was given — the live connection's old target is silently
kept. -/
theorem connect_reuses_live_connection (base : String) (st : SessionState)
    (projectPath : String) (hws : st.serverClaudeWs.isSome = true)
    (hconn : st.serverClaudeConnected = true) :
    connectToServerClaudeStep base st projectPath = (st, .reuse) := by
  rw [connectToServerClaudeStep]
  simp [hws, hconn]

/-- C5 witness: a live connected state, asked to connect to a different path,
is returned untouched with no dial. -/
theorem connect_reuses_live_connection_witness :
    (SessionState.mk (some "ws://161.35.229.220:5400?path=old&mode=claude") true
        ("kept".toList)).serverClaudeWs.isSome = true ∧
    (SessionState.mk (some "ws://161.35.229.220:5400?path=old&mode=claude") true
        ("kept".toList)).serverClaudeConnected = true ∧
    connectToServerClaudeStep "ws://161.35.229.220:5400"
        (SessionState.mk (some "ws://161.35.229.220:5400?path=old&mode=claude") true
          ("kept".toList)) "/different/path" =
      (SessionState.mk (some "ws://161.35.229.220:5400?path=old&mode=claude") true
        ("kept".toList), .reuse) :=
  ⟨rfl, rfl,
    connect_reuses_live_connection "ws://161.35.229.220:5400"
      (SessionState.mk (some "ws://161.35.229.220:5400?path=old&mode=claude") true
        ("kept".toList)) "/different/path" rfl rfl⟩

/-- C10: a connect call that actually dials (no live connected socket) resets
the buffer to the empty string before the socket ever opens, destroying all
previously accumulated output; a call that reuses the live connection leaves
the whole state, buffer included, unchanged. -/
theorem connect_dial_resets_buffer (base : String) (st : SessionState)
    (projectPath : String) :
    ((st.serverClaudeWs.isSome && st.serverClaudeConnected) = false →
      (connectToServerClaudeStep base st projectPath).1.serverClaudeBuffer = []) ∧
    ((st.serverClaudeWs.isSome && st.serverClaudeConnected) = true →
      (connectToServerClaudeStep base st projectPath).1 = st) := by
  constructor
  · intro h
    rw [connectToServerClaudeStep]
    simp [h]
  · intro h
    rw [connectToServerClaudeStep]
    simp [h]

/-- C10 witness: a dialing call from a disconnected state clears a non-empty
buffer; a reusing call keeps the state. -/
theorem connect_dial_resets_buffer_witness :
    (connectToServerClaudeStep "ws://161.35.229.220:5400"
        (SessionState.mk none false ("old output".toList))
        "/p").1.serverClaudeBuffer = [] ∧
    (connectToServerClaudeStep "ws://161.35.229.220:5400"
        (SessionState.mk (some "u") true ("kept".toList))
        "/p").1 = SessionState.mk (some "u") true ("kept".toList) :=
  ⟨(connect_dial_resets_buffer "ws://161.35.229.220:5400"
      (SessionState.mk none false ("old output".toList)) "/p").1 rfl,
   (connect_dial_resets_buffer "ws://161.35.229.220:5400"
      (SessionState.mk (some "u") true ("kept".toList)) "/p").2 rfl⟩

/-- C6: when neither `open` nor `error` fires within 10,000 ms of dialing, the
promise is rejected with the connect-timeout error exactly at the 10,000 ms
deadline — no earlier settling is possible; when `open` fires within the
deadline (and no error preceded it — a socket whose dial errors never emits
`open`), the promise resolves at the open instant, and the timer's later
check finds the connected flag set and does not reject. -/
theorem connect_timeout_at_deadline (openAt errAt : Option Nat) :
    ((∀ t, openAt = some t → 10000 < t) → (∀ t, errAt = some t → 10000 < t) →
      connectSettle openAt errAt = .rejectedTimeout 10000) ∧
    (∀ t, openAt = some t → t ≤ 10000 → (∀ u, errAt = some u → t ≤ u) →
      connectSettle openAt errAt = .resolved t) := by
  constructor
  · intro hO hE
    match openAt, errAt with
    | none, none => rfl
    | some tO, none =>
      have h1 := hO tO rfl
      rw [connectSettle, if_neg (by omega)]
    | none, some tE =>
      have h2 := hE tE rfl
      rw [connectSettle, if_neg (by omega)]
    | some tO, some tE =>
      have h1 := hO tO rfl
      have h2 := hE tE rfl
      rw [connectSettle]
      split
      · rw [if_neg (by omega)]
      · rw [if_neg (by omega)]
  · intro t hO hle hE
    match openAt, hO with
    | some tO, hO =>
      obtain rfl : tO = t := Option.some.inj hO
      match errAt with
      | none => rw [connectSettle, if_pos hle]
      | some tE =>
        have h2 := hE tE rfl
        rw [connectSettle, if_pos h2, if_pos hle]

/-- C6 witness: a trace with no events rejects with the timeout at 10,000 ms;
a trace whose `open` fires at 5 ms resolves at 5 ms. -/
theorem connect_timeout_at_deadline_witness :
    connectSettle none none = .rejectedTimeout 10000 ∧
      connectSettle (some 5) none = .resolved 5 :=
  ⟨(connect_timeout_at_deadline none none).1
      (fun t h => absurd h (by simp)) (fun t h => absurd h (by simp)),
   (connect_timeout_at_deadline (some 5) none).2 5 rfl (by norm_num)
      (fun u h => absurd h (by simp))⟩

/-- C7 (counterexample): the sentinel the tool actually returns for an empty
buffer is `'(no output yet - server Claude may still be processing)'` — and
`'(no output)'` in the unnamed revision — not the exact string
`'(no output yet)'`. -/
theorem sendText_sentinel_not_exact :
    serverClaudeSendText [] ≠ "(no output yet)".toList ∧
      serverClaudeSendTextLegacy [] ≠ "(no output yet)".toList := by
  constructor
  · rw [serverClaudeSendText, if_pos rfl]
    decide
  · rw [serverClaudeSendTextLegacy, if_pos rfl]
    decide

/-- C7 (amended): a send whose wait window ends with the buffer still empty
returns the sentinel `'(no output yet - server Claude may still be
processing)'` (in the unnamed revision, `'(no output)'`) rather than the
empty string, and in both revisions the caller never receives an empty
text. -/
theorem sendText_sentinel_nonempty :
    serverClaudeSendText [] =
      "(no output yet - server Claude may still be processing)".toList ∧
    serverClaudeSendTextLegacy [] = "(no output)".toList ∧
    (∀ buf : List Char, (serverClaudeSendText buf).isEmpty = false) ∧
    (∀ buf : List Char, (serverClaudeSendTextLegacy buf).isEmpty = false) := by
  refine ⟨rfl, rfl, ?_, ?_⟩
  · intro buf
    rw [serverClaudeSendText]
    split
    · decide
    · rename_i h
      cases buf with
      | nil => exact absurd rfl h
      | cons c cs => rfl
  · intro buf
    rw [serverClaudeSendTextLegacy]
    split
    · decide
    · rename_i h
      cases buf with
      | nil => exact absurd rfl h
      | cons c cs => rfl

/-- C8: `const wait = waitMs || 5000` replaces every falsy wait argument —
the number 0, `null`, `NaN`, and an absent argument — with the default
5,000 ms, so the wait value handed to the timer is never the number 0: a
zero-length wait window cannot be requested through the tool surface. -/
theorem sendWait_default_on_falsy :
    sendWait (.num 0) = .num 5000 ∧ sendWait .null = .num 5000 ∧
    sendWait .nan = .num 5000 ∧ sendWait .undefined = .num 5000 ∧
    ∀ w : JsNumArg, isZeroWait (sendWait w) = false := by
  refine ⟨rfl, rfl, rfl, rfl, ?_⟩
  intro w
  rw [sendWait]
  split
  · rename_i htru
    unfold isZeroWait
    split
    · simp [jsTruthy] at htru
    · rfl
  · rfl

/-- The scan passes over an ESC-free prefix unchanged (no CSI match can start
inside it). -/
theorem stripCsi_append_no_esc {p : List Char} (s : List Char) (hp : escChar ∉ p) :
    stripCsi (p ++ s) = p ++ stripCsi s := by
  induction p with
  | nil => rw [List.nil_append, List.nil_append]
  | cons c cs ih =>
    have hc : ¬c = escChar := fun h => hp (h ▸ List.mem_cons_self c cs)
    have hcs : escChar ∉ cs := fun h => hp (List.mem_cons_of_mem c h)
    rw [List.cons_append, stripCsi_cons_none (csiTail_of_head_ne hc), ih hcs,
      List.cons_append]

/-- Sanity check of the embedding against the design document's first test
vector: a colour code and a reset code are stripped, printable text and the
newline pass through. -/
theorem scrub_csi_example :
    scrub ("\x1b[31mHello\x1b[0m\n".toList) = "Hello\n".toList := by
  have e1 : "\x1b[31mHello\x1b[0m\n".toList
      = '\x1b' :: '[' :: '3' :: '1' :: 'm'
        :: ("Hello".toList ++ ('\x1b' :: '[' :: '0' :: 'm' :: "\n".toList)) := rfl
  have hm1 : csiTail ('\x1b' :: '[' :: '3' :: '1' :: 'm'
        :: ("Hello".toList ++ ('\x1b' :: '[' :: '0' :: 'm' :: "\n".toList)))
      = some ("Hello".toList ++ ('\x1b' :: '[' :: '0' :: 'm' :: "\n".toList)) := rfl
  have hm2 : csiTail ('\x1b' :: '[' :: '0' :: 'm' :: "\n".toList)
      = some ("\n".toList) := rfl
  have h1 : stripCsi ("\x1b[31mHello\x1b[0m\n".toList) = "Hello\n".toList := by
    rw [e1, stripCsi_cons_some hm1, stripCsi_append_no_esc _ (by decide),
      stripCsi_cons_some hm2, stripCsi_of_no_esc _ (by decide)]
    decide
  rw [scrub, h1, stripPrivateCsi_of_no_esc _ (by decide),
    stripOsc_of_no_esc _ (by decide), stripEsc_of_no_esc _ (by decide)]

/-- Sanity check of the embedding: a private-mode sequence survives the first
replacement (the `?` fails its final-byte check) and is removed by the
second; the stray ESC never reaches the fourth. -/
theorem scrub_private_mode_example : scrub ("\x1b[?25h".toList) = [] := by
  have e1 : "\x1b[?25h".toList
      = '\x1b' :: '[' :: '?' :: '2' :: '5' :: 'h' :: [] := rfl
  have h1 : stripCsi ("\x1b[?25h".toList) = "\x1b[?25h".toList := by
    rw [e1, stripCsi_cons_none (by rfl), stripCsi_of_no_esc _ (by decide)]
  have hm : privateCsiTail ('\x1b' :: '[' :: '?' :: '2' :: '5' :: 'h' :: [])
      = some [] := rfl
  have h2 : stripPrivateCsi ("\x1b[?25h".toList) = [] := by
    rw [e1, stripPrivateCsi_cons_some hm, stripPrivateCsi]
  rw [scrub, h1, h2, stripOsc, stripEsc, List.filter_nil]

/-- Sanity check of the embedding against the design document's second test
vector: an OSC title sequence is removed through its BEL terminator. -/
theorem scrub_osc_example : scrub ("\x1b]0;title\x07Body".toList) = "Body".toList := by
  have e1 : "\x1b]0;title\x07Body".toList
      = '\x1b' :: ']' :: '0' :: ';' :: 't' :: 'i' :: 't' :: 'l' :: 'e' :: '\x07'
        :: "Body".toList := rfl
  have h1 : stripCsi ("\x1b]0;title\x07Body".toList) = "\x1b]0;title\x07Body".toList := by
    rw [e1, stripCsi_cons_none (by rfl), stripCsi_of_no_esc _ (by decide)]
  have h2 : stripPrivateCsi ("\x1b]0;title\x07Body".toList)
      = "\x1b]0;title\x07Body".toList := by
    rw [e1, stripPrivateCsi_cons_none (by rfl), stripPrivateCsi_of_no_esc _ (by decide)]
  have hm : oscTail ('\x1b' :: ']' :: '0' :: ';' :: 't' :: 'i' :: 't' :: 'l' :: 'e'
        :: '\x07' :: "Body".toList) = some ("Body".toList) := rfl
  have h3 : stripOsc ("\x1b]0;title\x07Body".toList) = "Body".toList := by
    rw [e1, stripOsc_cons_some hm, stripOsc_of_no_esc _ (by decide)]
  rw [scrub, h1, h2, h3, stripEsc_of_no_esc _ (by decide)]
